import Mathlib

/-!
# Verification of the `parse-vital` decoder

A shallow embedding of `parse_vital.py`: the byte-level packet parser built
from the `construct` combinators used in `Vital.load_vital`, and a data-level
model of `Vital.__init__`, `Vital.get_track`, `Track.__init__` and
`Track.save_to_file`.

The byte stream is a `List Nat` of byte values.  A parser is a function from
the stream to either an error or a value together with the unconsumed suffix,
mirroring `construct`'s stream semantics:

* a short read raises `StreamError`;
* `OneOf` raises a validation error on a value outside its set;
* `Const` raises an error on a signature mismatch;
* `Padded(n, sub)` parses `sub`, fails if it consumed more than `n` bytes,
  and otherwise skips padding up to `n` bytes total;
* a missing key in the `trk_format` registry raises a (Python) `KeyError`,
  which — like the validation errors — is *not* a `StreamError`.

Floating-point fields (`f32`/`f64`) are kept as their raw little-endian byte
lists at this level; the claims about the parser concern framing and byte
budgets, not float arithmetic.  The data-level model (further below) uses `ℚ`
for already-decoded numeric values.
-/

namespace ParseVital

/-- Error kinds raised while parsing, mirroring the exceptions of
`construct` and Python that `load_vital` can encounter.  `streamError` is
`construct.StreamError` (short read); `validationError` is raised by `OneOf`;
`constError` by `Const`; `paddingError` by `Padded` when the subconstruct
overran its length; `keyError` is Python's `KeyError` from the
`trk_format[...]` lookups; `rangeError` stands for the broken
`default="Unknown recfmt"` branch of the recfmt switch; `integrityMismatch`
is the `AssertionError` of the summed-datalen check; `fuelOut` is an
artifact of the embedding's fuel-indexed loop and is unreachable for the
fuel `load_vital` uses. -/
inductive CErr where
  | streamError
  | validationError
  | constError
  | paddingError
  | keyError
  | rangeError
  | integrityMismatch
  | fuelOut
deriving DecidableEq

/-- A parser over a byte stream: returns the parsed value and the unconsumed
suffix of the stream, or an error. -/
def P (α : Type) : Type := List Nat → Except CErr (α × List Nat)

/-- Parser returning a constant, consuming nothing. -/
def ppure {α : Type} (a : α) : P α := fun bs => .ok (a, bs)

/-- Parser that always fails. -/
def pfail {α : Type} (e : CErr) : P α := fun _ => .error e

/-- Sequencing of parsers. -/
def pbind {α β : Type} (p : P α) (f : α → P β) : P β := fun bs =>
  match p bs with
  | .ok (a, rest) => f a rest
  | .error e => .error e

/-- Mapping over a parser's result. -/
def pmap {α β : Type} (p : P α) (f : α → β) : P β :=
  pbind p (fun a => ppure (f a))

/-- Read exactly `n` bytes; a short read is a `StreamError`. -/
def readBytes (n : Nat) : P (List Nat) := fun bs =>
  if n ≤ bs.length then .ok (bs.take n, bs.drop n) else .error .streamError

/-- `construct.Byte`: one byte. -/
def readByte : P Nat :=
  pbind (readBytes 1) (fun l => ppure (l.headD 0))

/-- Little-endian value of a byte list. -/
def leNat (l : List Nat) : Nat :=
  l.foldr (fun b acc => b + 256 * acc) 0

/-- `Int16ul` / `WORD`: unsigned 16-bit little-endian. -/
def readU16 : P Nat := pmap (readBytes 2) leNat

/-- `Int32ul` / `DWORD`: unsigned 32-bit little-endian. -/
def readU32 : P Nat := pmap (readBytes 4) leNat

/-- Two's-complement reading of an unsigned `w`-bit value. -/
def toSigned (w : Nat) (v : Nat) : Int :=
  if v < 2 ^ (w - 1) then (v : Int) else (v : Int) - 2 ^ w

/-- `OneOf(inner, s)`: validate the parsed value against the set `s`. -/
def oneOf (p : P Nat) (s : List Nat) : P Nat :=
  pbind p (fun v => if v ∈ s then ppure v else pfail .validationError)

/-- `PascalString(DWORD, "UTF-8")`: a `u32` length followed by that many
bytes.  The bytes are kept raw at this level (UTF-8 decoding does not affect
framing). -/
def pstring : P (List Nat) :=
  pbind readU32 readBytes

/-- `Array(n, sub)`: `n` repetitions of `sub`, left to right. -/
def parseArray {α : Type} (n : Nat) (p : P α) : P (List α) :=
  match n with
  | 0 => ppure []
  | n + 1 =>
    pbind p (fun a => pbind (parseArray n p) (fun as => ppure (a :: as)))

/-- `Padded(n, sub)`: parse `sub` from the stream, fail with a padding error
if it consumed more than `n` bytes, and otherwise skip padding bytes so that
exactly `n` bytes are consumed in total. -/
def padded {α : Type} (n : Nat) (p : P α) : P α := fun bs =>
  match p bs with
  | .error e => .error e
  | .ok (a, rest) =>
    let c := bs.length - rest.length
    if n < c then .error .paddingError
    else
      match readBytes (n - c) rest with
      | .ok (_, rest2) => .ok (a, rest2)
      | .error e => .error e

/-! ## Packet structures (`load_vital`'s construct declarations) -/

/-- Parsed `devinfo_str`: `devid / DWORD, typename / String, devname / String,
port / String`. -/
structure DevInfoP where
  devid : Nat
  typename : List Nat
  devname : List Nat
  port : List Nat
deriving DecidableEq

/-- Parsed `trkinfo_str`.  Float fields are kept as their raw little-endian
bytes. -/
structure TrkInfoP where
  trkid : Nat
  rec_type : Nat
  recfmt : Nat
  name : List Nat
  unit : List Nat
  minval : List Nat
  maxval : List Nat
  color : List Nat
  srate : List Nat
  adc_gain : List Nat
  adc_offset : List Nat
  montype : Nat
  devid : Nat
deriving DecidableEq

/-- Parsed `cmd_str`: `cnt` and `trkids` are present exactly when
`cmd == 5` (the `If(this.cmd == 5, ...)` fields). -/
structure CmdP where
  cmd : Nat
  cnt : Option Nat
  trkids : Option (List Nat)
deriving DecidableEq

/-- `devinfo_str`. -/
def devinfo_str : P DevInfoP :=
  pbind readU32 fun devid =>
  pbind pstring fun typename =>
  pbind pstring fun devname =>
  pbind pstring fun port =>
  ppure ⟨devid, typename, devname, port⟩

/-- The fields of `trkinfo_str` after `trkid`, `rec_type` and `recfmt`,
assembling the full record. -/
def trkinfoRest (trkid rec_type recfmt : Nat) : P TrkInfoP :=
  pbind pstring fun name =>
  pbind pstring fun unit =>
  pbind (readBytes 4) fun minval =>
  pbind (readBytes 4) fun maxval =>
  pbind (readBytes 4) fun color =>
  pbind (readBytes 4) fun srate =>
  pbind (readBytes 8) fun adc_gain =>
  pbind (readBytes 8) fun adc_offset =>
  pbind readByte fun montype =>
  pbind readU32 fun devid =>
  ppure ⟨trkid, rec_type, recfmt, name, unit, minval, maxval, color, srate,
    adc_gain, adc_offset, montype, devid⟩

/-- `trkinfo_str`: note the `OneOf(Byte, [1, 6])` validation on `recfmt`,
which rejects every other byte value with a validation error. -/
def trkinfo_str : P TrkInfoP :=
  pbind readU16 fun trkid =>
  pbind readByte fun rec_type =>
  pbind (oneOf readByte [1, 6]) fun recfmt =>
  trkinfoRest trkid rec_type recfmt

/-- `cmd_str`. -/
def cmd_str : P CmdP :=
  pbind readByte fun cmd =>
  if cmd = 5 then
    pbind readU16 fun cnt =>
    pbind (parseArray cnt readU16) fun trkids =>
    ppure ⟨cmd, some cnt, some trkids⟩
  else ppure ⟨cmd, none, none⟩

/-- A decoded sample element, tagged with the element type the `recfmt`
switch chose for it.  Float elements keep their raw bytes; integer elements
are decoded (`i16`/`i32` by two's complement). -/
inductive RecVal where
  | f32 (raw : List Nat)
  | f64 (raw : List Nat)
  | u8 (v : Nat)
  | i16 (v : Int)
  | u16 (v : Nat)
  | i32 (v : Int)
  | u32 (v : Nat)
deriving DecidableEq

/-- The element parser chosen by the `recfmt_str` switch for a given
`recfmt` code: 1=f32, 2=f64, 3/4=u8 (`Byte`), 5=i16, 6=u16, 7=i32, 8=u32. -/
def pElem (recfmt : Nat) : P RecVal :=
  match recfmt with
  | 1 => pmap (readBytes 4) RecVal.f32
  | 2 => pmap (readBytes 8) RecVal.f64
  | 3 => pmap readByte RecVal.u8
  | 4 => pmap readByte RecVal.u8
  | 5 => pmap (readBytes 2) (fun l => RecVal.i16 (toSigned 16 (leNat l)))
  | 6 => pmap (readBytes 2) (fun l => RecVal.u16 (leNat l))
  | 7 => pmap (readBytes 4) (fun l => RecVal.i32 (toSigned 32 (leNat l)))
  | 8 => pmap (readBytes 4) (fun l => RecVal.u32 (leNat l))
  | _ => pfail .rangeError

/-- Byte width of the element type for each `recfmt` code. -/
def elemWidth (recfmt : Nat) : Nat :=
  match recfmt with
  | 1 => 4
  | 2 => 8
  | 3 => 1
  | 4 => 1
  | 5 => 2
  | 6 => 2
  | 7 => 4
  | 8 => 4
  | _ => 0

/-- `recfmt_str`: an array of `num` elements whose type is switched on the
`recfmt` code; codes outside 1..8 hit the broken `default` subconstruct and
fail. -/
def recfmt_str (recfmt num : Nat) : P (List RecVal) :=
  match recfmt with
  | 1 | 2 | 3 | 4 | 5 | 6 | 7 | 8 => parseArray num (pElem recfmt)
  | _ => pfail .rangeError

/-- The `values` payload of a REC packet. -/
inductive RecDataB where
  | wav (num : Nat) (recfmt : Nat) (vals : List RecVal)
  | num1 (recfmt : Nat) (val : List RecVal)
  | strv (unused : Nat) (sval : List Nat)
  | raw (bytes : List Nat)
deriving DecidableEq

/-- `rec_wav_str`: `num / DWORD`, `recfmt` computed from the registry entry
of the enclosing REC's `trkid`, `vals / recfmt_str`. -/
def rec_wav_str (recfmt : Nat) : P RecDataB :=
  pbind readU32 fun num =>
  pmap (recfmt_str recfmt num) (RecDataB.wav num recfmt)

/-- `rec_num_str`: `recfmt` computed from the registry, `num` computed as 1,
a single-element `recfmt_str` array. -/
def rec_num_str (recfmt : Nat) : P RecDataB :=
  pmap (recfmt_str recfmt 1) (RecDataB.num1 recfmt)

/-- `rec_str_str`: `unused / DWORD`, `sval / String`. -/
def rec_str_str : P RecDataB :=
  pbind readU32 fun unused =>
  pmap pstring (RecDataB.strv unused)

/-- The `trk_format` registry: trkid ↦ latest TRKINFO parsed for it.  The
Python `dict.update` lets the latest entry win; prepending and taking the
first match models that. -/
abbrev Reg : Type := List (Nat × TrkInfoP)

/-- Registry lookup (`trk_format[trkid]`); `none` models a `KeyError`. -/
def regFind (fmt : Reg) (trkid : Nat) : Option TrkInfoP :=
  (fmt.find? (fun p => p.1 = trkid)).map (fun p => p.2)

/-- `save_format_hook`: `trk_format.update({obj["trkid"]: obj})`. -/
def regUpdate (fmt : Reg) (t : TrkInfoP) : Reg :=
  (t.trkid, t) :: fmt

/-- A parsed REC packet (`rec_str`), with the computed `rec_type` and `name`
resolved through the registry.  `dt` keeps the raw 8 timestamp bytes. -/
structure RecP where
  infolen : Nat
  dt : List Nat
  trkid : Nat
  rec_type : Nat
  name : List Nat
  values : RecDataB
deriving DecidableEq

/-- The `values` switch of `rec_str`: dispatch on the registry `rec_type`,
each known variant wrapped in `Padded(budget, ...)` with
`budget = datalen - infolen - 2`, the default consuming `Byte[budget]`. -/
def recValues_str (rec_type recfmt budget : Nat) : P RecDataB := fun bs =>
  match rec_type with
  | 1 => padded budget (rec_wav_str recfmt) bs
  | 2 => padded budget (rec_num_str recfmt) bs
  | 5 => padded budget rec_str_str bs
  | _ => pmap (readBytes budget) RecDataB.raw bs

/-- The `rec_str` record structure: `infolen / WORD`,
`dt / Timestamp(double_)`, `trkid / WORD`, then the `values` switch on the
registry's `rec_type`.  A `trkid` absent from the registry raises a
`KeyError` from the `Computed` lambdas. -/
def rec_str (datalen : Nat) (fmt : Reg) : P RecP :=
  pbind readU16 fun infolen =>
  pbind (readBytes 8) fun dt =>
  pbind readU16 fun trkid =>
  match regFind fmt trkid with
  | none => pfail .keyError
  | some ti =>
    pbind (recValues_str ti.rec_type ti.recfmt (datalen - infolen - 2))
      (fun vals => ppure ⟨infolen, dt, trkid, ti.rec_type, ti.name, vals⟩)

/-- Parsed `header_str`.  `tzbias` is a signed 16-bit value. -/
structure HeaderP where
  format_ver : Nat
  headerlen : Nat
  tzbias : Int
  inst_id : Nat
  prog_ver : Nat
deriving DecidableEq

/-- The bytes of the `Const(b'VITA')` signature. -/
def vitaSig : List Nat := [86, 73, 84, 65]

/-- `header_str`: the `VITA` signature, then `format_ver / DWORD`,
`headerlen / WORD`, `tzbias / short`, `inst_id / DWORD`, `prog_ver / DWORD`. -/
def header_str : P HeaderP :=
  pbind (readBytes 4) fun sig =>
  if sig = vitaSig then
    pbind readU32 fun format_ver =>
    pbind readU16 fun headerlen =>
    pbind (readBytes 2) fun tz =>
    pbind readU32 fun inst_id =>
    pbind readU32 fun prog_ver =>
    ppure ⟨format_ver, headerlen, toSigned 16 (leNat tz), inst_id, prog_ver⟩
  else pfail .constError

/-- A body packet's decoded `data` field. -/
inductive PDataB where
  | devinfo (d : DevInfoP)
  | trkinfo (t : TrkInfoP)
  | recp (r : RecP)
  | cmd (c : CmdP)
  | skipped
deriving DecidableEq

/-- One parsed body packet. -/
structure PacketB where
  type : Nat
  datalen : Nat
  data : PDataB
deriving DecidableEq

/-- `body_str`: `type / OneOf(Byte, [0, 1, 9, 6])`, `datalen / DWORD`, then
the `data` switch: each known type's subconstruct wrapped in
`Padded(datalen, ...)`, a successfully parsed TRKINFO updating the registry
via `save_format_hook`, and unknown types skipped via `Padding(datalen)`
(unreachable behind the `OneOf`).  Returns the packet together with the
possibly-updated registry. -/
def body_str (fmt : Reg) : P (PacketB × Reg) :=
  pbind (oneOf readByte [0, 1, 9, 6]) fun ty =>
  pbind readU32 fun datalen =>
  match ty with
  | 9 => pmap (padded datalen devinfo_str)
      (fun d => (⟨9, datalen, .devinfo d⟩, fmt))
  | 0 => pbind (padded datalen trkinfo_str)
      (fun t => ppure ((⟨0, datalen, .trkinfo t⟩ : PacketB), regUpdate fmt t))
  | 1 => pmap (padded datalen (rec_str datalen fmt))
      (fun r => (⟨1, datalen, .recp r⟩, fmt))
  | 6 => pmap (padded datalen cmd_str)
      (fun c => (⟨6, datalen, .cmd c⟩, fmt))
  | _ => pmap (readBytes datalen)
      (fun _ => (⟨ty, datalen, .skipped⟩, fmt))

/-- The `while not completed` loop of `load_vital`: parse body packets,
appending each to the accumulator; a `StreamError` — wherever inside the
packet it arose — is caught and ends the loop cleanly, while every other
error propagates.  The fuel argument is an artifact of the embedding; one
unit per remaining byte plus one is always enough, since a successful packet
parse consumes at least its type byte. -/
def bodyLoop : Nat → List Nat → Reg → List PacketB →
    Except CErr (List PacketB × Reg)
  | 0, _, _, _ => .error .fuelOut
  | fuel + 1, bs, fmt, acc =>
    match body_str fmt bs with
    | .error .streamError => .ok (acc, fmt)
    | .error e => .error e
    | .ok ((p, fmt2), rest) => bodyLoop fuel rest fmt2 (acc ++ [p])

/-- Run the packet loop on a stream with adequate fuel. -/
def runBody (bs : List Nat) (fmt : Reg) : Except CErr (List PacketB × Reg) :=
  bodyLoop (bs.length + 1) bs fmt []

/-- The file model produced by `load_vital`: header and ordered packet
list. -/
structure VitalP where
  header : HeaderP
  body : List PacketB
deriving DecidableEq

/-- `load_vital`: parse the header, run the packet loop, then assert that
`sum(datalen + 5 for packet in body) + headerlen + 10` equals the total
decompressed file size (the length of the stream); a mismatch is the
`AssertionError` of the integrity check. -/
def loadVital (bs : List Nat) : Except CErr VitalP :=
  match header_str bs with
  | .error e => .error e
  | .ok (hdr, rest) =>
    match runBody rest [] with
    | .error e => .error e
    | .ok (body, _) =>
      if (body.map (fun x => x.datalen + 5)).sum + hdr.headerlen + 10
          = bs.length then
        .ok ⟨hdr, body⟩
      else .error .integrityMismatch

/-!
## Data-level model

`Vital.__init__`, `Vital.get_track`, `Track.__init__` and
`Track.save_to_file` operate on the already-parsed containers.  At this
level decoded numeric values (floats included) are modelled as rationals,
and decoded strings as Lean strings.
-/

/-- A TRKINFO container as seen after parsing, with decoded values. -/
structure TrkInfoD where
  trkid : Nat
  rec_type : Nat
  recfmt : Nat
  name : String
  unit : String
  srate : ℚ
  adc_gain : ℚ
  adc_offset : ℚ
  devid : Nat
deriving DecidableEq

/-- The `values` sub-container of a REC, per variant: `rec_wav_str` carries
`num` and `vals`, `rec_num_str` carries the one-element array `val`,
`rec_str_str` carries `sval`. -/
inductive RValsD where
  | wav (num : Nat) (vals : List ℚ)
  | numv (val : List ℚ)
  | strv (sval : String)
deriving DecidableEq

/-- A REC container as seen after parsing. -/
structure RecD where
  trkid : Nat
  dt : ℚ
  values : RValsD
deriving DecidableEq

/-- One parsed body packet at the data level: its type byte and its decoded
`data` field. -/
inductive PDataD where
  | trkinfo (t : TrkInfoD)
  | recd (r : RecD)
  | other
deriving DecidableEq

/-- A body packet at the data level. -/
structure PacketD where
  type : Nat
  data : PDataD
deriving DecidableEq

/-- `self.track_info = [packet.data for packet in self.file.body if
packet.type == 0]`.  (A type-0 packet's data is always a TRKINFO by the
parser's switch.) -/
def vitalTrackInfo (body : List PacketD) : List TrkInfoD :=
  body.filterMap (fun p =>
    if p.type = 0 then
      match p.data with
      | .trkinfo t => some t
      | _ => none
    else none)

/-- `self.recs = [packet.data for packet in self.file.body if
packet.type == 1]`. -/
def vitalRecs (body : List PacketD) : List RecD :=
  body.filterMap (fun p =>
    if p.type = 1 then
      match p.data with
      | .recd r => some r
      | _ => none
    else none)

/-- The `Vital` object: its `track_info` and `recs` views. -/
structure VitalD where
  track_info : List TrkInfoD
  recs : List RecD
deriving DecidableEq

/-- `Vital.__init__`'s derived views over a parsed body. -/
def mkVital (body : List PacketD) : VitalD :=
  ⟨vitalTrackInfo body, vitalRecs body⟩

/-- Errors `get_track` / `Track.__init__` can raise: the explicit
`ValueError` for a missing argument; the unpacking `ValueError`s of
`x, = generator` for zero (`...NotFound`) or several (`...Ambiguous`)
matches; the `assert trkid == trkid_from_name` failure; the explicit
`Exception` for an unknown `rec_type`; Python `AttributeError` /
`IndexError` if a REC's container variant does not carry the accessed
field. -/
inductive TrackErr where
  | valueError
  | nameNotFound
  | nameAmbiguous
  | assertMismatch
  | idNotFound
  | idAmbiguous
  | unknownRecType
  | attributeError
  | indexError
deriving DecidableEq

/-- A REC after `Track.__init__`'s conversion loop: the original container
fields plus the added `vals_real` and the (possibly overwritten) `num`. -/
inductive RealVal where
  | rs (l : List ℚ)
  | r (x : ℚ)
  | s (sval : String)
deriving DecidableEq

/-- One converted REC of a track. -/
structure CRecD where
  trkid : Nat
  dt : ℚ
  values : RValsD
  num : Nat
  vals_real : RealVal
deriving DecidableEq

/-- The conversion `Track.__init__` applies to one REC, dispatching on the
track's `rec_type`: waveform maps every raw sample through
`val * adc_gain + adc_offset`; numeric applies the same transform to
`val[0]`; string exposes `sval` and sets `num = 1`; any other `rec_type`
raises. -/
def convRec (info : TrkInfoD) (r : RecD) : Except TrackErr CRecD :=
  if info.rec_type = 1 then
    match r.values with
    | .wav n vals =>
      .ok ⟨r.trkid, r.dt, r.values, n,
        .rs (vals.map (fun val => val * info.adc_gain + info.adc_offset))⟩
    | _ => .error .attributeError
  else if info.rec_type = 2 then
    match r.values with
    | .numv val =>
      match val with
      | v0 :: _ =>
        .ok ⟨r.trkid, r.dt, r.values, 1,
          .r (v0 * info.adc_gain + info.adc_offset)⟩
      | [] => .error .indexError
    | _ => .error .attributeError
  else if info.rec_type = 5 then
    match r.values with
    | .strv sval => .ok ⟨r.trkid, r.dt, r.values, 1, .s sval⟩
    | _ => .error .attributeError
  else .error .unknownRecType

/-- A `Track` object: the unique TRKINFO and the converted RECs. -/
structure TrackD where
  info : TrkInfoD
  recs : List CRecD
deriving DecidableEq

/-- The `for i, rec in enumerate(self.recs)` conversion loop of
`Track.__init__`: convert left to right, aborting on the first failing
REC. -/
def convRecs (info : TrkInfoD) : List RecD → Except TrackErr (List CRecD)
  | [] => .ok []
  | r :: rs =>
    match convRec info r with
    | .error e => .error e
    | .ok c =>
      match convRecs info rs with
      | .error e => .error e
      | .ok cs => .ok (c :: cs)

/-- `Track.__init__`: `self.info, = (trk for trk in track_info if
trk.trkid == trkid)` (zero or several matches raise), `self.recs = [rec for
rec in recs if rec.trkid == trkid]`, then the conversion loop. -/
def mkTrack (v : VitalD) (trkid : Nat) : Except TrackErr TrackD :=
  match v.track_info.filter (fun trk => trk.trkid = trkid) with
  | [] => .error .idNotFound
  | [info] =>
    match convRecs info (v.recs.filter (fun rec => rec.trkid = trkid)) with
    | .ok crecs => .ok ⟨info, crecs⟩
    | .error e => .error e
  | _ => .error .idAmbiguous

/-- `Vital.get_track`: raises `ValueError` when neither argument is given;
resolves a given `name` to the unique matching `trkid` (zero or several
matches raise); asserts agreement when both arguments are given; finally
constructs the `Track`. -/
def getTrack (v : VitalD) (trkid : Option Nat) (name : Option String) :
    Except TrackErr TrackD :=
  match trkid, name with
  | none, none => .error .valueError
  | t, some n =>
    match v.track_info.filter (fun x => x.name = n) with
    | [] => .error .nameNotFound
    | [x] =>
      match t with
      | some tid =>
        if tid = x.trkid then mkTrack v x.trkid else .error .assertMismatch
      | none => mkTrack v x.trkid
    | _ => .error .nameAmbiguous
  | some tid, none => mkTrack v tid

/-- `Track.save_to_file`'s default file name:
`Path(self.info._io.name).stem + '_' + self.info.name + '.csv'`. -/
def trackFileName (inputStem : String) (trackName : String) : String :=
  inputStem ++ "_" ++ trackName ++ ".csv"

/-- Modelled from the spec (for comparison only): the claimed output naming
`<input_stem>_signal_<track_name>_<devid>.csv`. -/
def trackFileNameSpec (inputStem trackName devid : String) : String :=
  inputStem ++ "_signal_" ++ trackName ++ "_" ++ devid ++ ".csv"

/-!
## Parser lemmas

Inversion and consumption lemmas for the combinators, used to reason about
framing.
-/

theorem pbind_ok {α β : Type} {p : P α} {f : α → P β} {bs : List Nat}
    {b : β} {rest : List Nat} :
    pbind p f bs = .ok (b, rest) ↔
      ∃ a mid, p bs = .ok (a, mid) ∧ f a mid = .ok (b, rest) := by
  unfold pbind
  cases hp : p bs with
  | error e => simp
  | ok x =>
    obtain ⟨a, mid⟩ := x
    simp only [Except.ok.injEq, Prod.mk.injEq]
    constructor
    · intro h
      exact ⟨a, mid, ⟨rfl, rfl⟩, h⟩
    · rintro ⟨a1, mid1, ⟨rfl, rfl⟩, h⟩
      exact h

theorem pmap_ok {α β : Type} {p : P α} {f : α → β} {bs : List Nat}
    {b : β} {rest : List Nat} :
    pmap p f bs = .ok (b, rest) ↔
      ∃ a, p bs = .ok (a, rest) ∧ b = f a := by
  unfold pmap
  rw [pbind_ok]
  constructor
  · rintro ⟨a, mid, h1, h2⟩
    unfold ppure at h2
    simp only [Except.ok.injEq, Prod.mk.injEq] at h2
    exact ⟨a, by rw [h1, h2.2], h2.1.symm⟩
  · rintro ⟨a, h1, h2⟩
    exact ⟨a, rest, h1, by simp [ppure, h2]⟩

theorem ppure_ok {α : Type} {a b : α} {bs rest : List Nat} :
    ppure a bs = .ok (b, rest) ↔ b = a ∧ rest = bs := by
  unfold ppure
  simp only [Except.ok.injEq, Prod.mk.injEq]
  tauto

theorem readBytes_spec {n : Nat} {bs a rest : List Nat}
    (h : readBytes n bs = .ok (a, rest)) :
    a = bs.take n ∧ rest = bs.drop n ∧ n ≤ bs.length := by
  unfold readBytes at h
  split at h
  · simp only [Except.ok.injEq, Prod.mk.injEq] at h
    exact ⟨h.1.symm, h.2.symm, by assumption⟩
  · simp at h

theorem readBytes_len {n : Nat} {bs a rest : List Nat}
    (h : readBytes n bs = .ok (a, rest)) :
    bs.length = n + rest.length := by
  obtain ⟨-, h2, h3⟩ := readBytes_spec h
  subst h2
  simp
  omega

theorem readByte_len {bs : List Nat} {a : Nat} {rest : List Nat}
    (h : readByte bs = .ok (a, rest)) :
    bs.length = 1 + rest.length := by
  unfold readByte at h
  rw [pbind_ok] at h
  obtain ⟨l, mid, h1, h2⟩ := h
  rw [ppure_ok] at h2
  rw [h2.2]
  exact readBytes_len h1

theorem readU16_len {bs : List Nat} {a : Nat} {rest : List Nat}
    (h : readU16 bs = .ok (a, rest)) :
    bs.length = 2 + rest.length := by
  unfold readU16 at h
  rw [pmap_ok] at h
  obtain ⟨l, h1, -⟩ := h
  exact readBytes_len h1

theorem readU32_len {bs : List Nat} {a : Nat} {rest : List Nat}
    (h : readU32 bs = .ok (a, rest)) :
    bs.length = 4 + rest.length := by
  unfold readU32 at h
  rw [pmap_ok] at h
  obtain ⟨l, h1, -⟩ := h
  exact readBytes_len h1

theorem oneOf_ok {p : P Nat} {s : List Nat} {bs : List Nat} {v : Nat}
    {rest : List Nat} (h : oneOf p s bs = .ok (v, rest)) :
    p bs = .ok (v, rest) ∧ v ∈ s := by
  unfold oneOf at h
  rw [pbind_ok] at h
  obtain ⟨a, mid, h1, h2⟩ := h
  split at h2
  · rw [ppure_ok] at h2
    obtain ⟨rfl, rfl⟩ := h2
    exact ⟨h1, by assumption⟩
  · simp [pfail] at h2

theorem pstring_len {bs a rest : List Nat}
    (h : pstring bs = .ok (a, rest)) :
    rest.length + 4 ≤ bs.length := by
  unfold pstring at h
  rw [pbind_ok] at h
  obtain ⟨n, mid, h1, h2⟩ := h
  have l1 := readU32_len h1
  have l2 := readBytes_len h2
  omega

/-- A parser never lengthens the stream. -/
def Mono {α : Type} (p : P α) : Prop :=
  ∀ bs a rest, p bs = .ok (a, rest) → rest.length ≤ bs.length

theorem mono_ppure {α : Type} (a : α) : Mono (ppure a) := by
  intro bs b rest h
  rw [ppure_ok] at h
  rw [h.2]

theorem mono_pfail {α : Type} (e : CErr) : Mono (pfail (α := α) e) := by
  intro bs b rest h
  simp [pfail] at h

theorem mono_pbind {α β : Type} {p : P α} {f : α → P β} (hp : Mono p)
    (hf : ∀ a, Mono (f a)) : Mono (pbind p f) := by
  intro bs b rest h
  rw [pbind_ok] at h
  obtain ⟨a, mid, h1, h2⟩ := h
  exact le_trans (hf a mid b rest h2) (hp bs a mid h1)

theorem mono_pmap {α β : Type} {p : P α} {f : α → β} (hp : Mono p) :
    Mono (pmap p f) :=
  mono_pbind hp (fun a => mono_ppure (f a))

theorem mono_readBytes (n : Nat) : Mono (readBytes n) := by
  intro bs a rest h
  have := readBytes_len h
  omega

theorem mono_readByte : Mono readByte :=
  mono_pbind (mono_readBytes 1) (fun l => mono_ppure _)

theorem mono_readU16 : Mono readU16 := mono_pmap (mono_readBytes 2)

theorem mono_readU32 : Mono readU32 := mono_pmap (mono_readBytes 4)

theorem mono_oneOf {p : P Nat} (hp : Mono p) (s : List Nat) :
    Mono (oneOf p s) := by
  intro bs a rest h
  obtain ⟨h1, -⟩ := oneOf_ok h
  exact hp bs a rest h1

theorem mono_pstring : Mono pstring := by
  intro bs a rest h
  have := pstring_len h
  omega

theorem mono_parseArray {α : Type} {p : P α} (hp : Mono p) (n : Nat) :
    Mono (parseArray n p) := by
  induction n with
  | zero => exact mono_ppure []
  | succ n ih =>
    exact mono_pbind hp (fun a => mono_pbind ih (fun as => mono_ppure _))

theorem mono_pElem (recfmt : Nat) : Mono (pElem recfmt) := by
  unfold pElem
  match recfmt with
  | 1 => exact mono_pmap (mono_readBytes 4)
  | 2 => exact mono_pmap (mono_readBytes 8)
  | 3 => exact mono_pmap mono_readByte
  | 4 => exact mono_pmap mono_readByte
  | 5 => exact mono_pmap (mono_readBytes 2)
  | 6 => exact mono_pmap (mono_readBytes 2)
  | 7 => exact mono_pmap (mono_readBytes 4)
  | 8 => exact mono_pmap (mono_readBytes 4)
  | n + 9 => exact mono_pfail _
  | 0 => exact mono_pfail _

theorem mono_recfmt_str (recfmt num : Nat) : Mono (recfmt_str recfmt num) := by
  unfold recfmt_str
  match recfmt with
  | 1 | 2 | 3 | 4 | 5 | 6 | 7 | 8 => exact mono_parseArray (mono_pElem _) num
  | 0 => exact mono_pfail _
  | n + 9 => exact mono_pfail _

theorem mono_rec_wav_str (recfmt : Nat) : Mono (rec_wav_str recfmt) :=
  mono_pbind mono_readU32 (fun num => mono_pmap (mono_recfmt_str recfmt num))

theorem mono_rec_num_str (recfmt : Nat) : Mono (rec_num_str recfmt) :=
  mono_pmap (mono_recfmt_str recfmt 1)

theorem mono_rec_str_str : Mono rec_str_str :=
  mono_pbind mono_readU32 (fun u => mono_pmap mono_pstring)

/-- `Padded(n, sub)` consumes exactly `n` bytes when it succeeds. -/
theorem padded_len {α : Type} {p : P α} (hp : Mono p) {n : Nat}
    {bs : List Nat} {a : α} {rest : List Nat}
    (h : padded n p bs = .ok (a, rest)) :
    bs.length = n + rest.length := by
  unfold padded at h
  cases hq : p bs with
  | error e => rw [hq] at h; simp at h
  | ok x =>
    obtain ⟨a1, mid⟩ := x
    rw [hq] at h
    simp only at h
    split at h
    · simp at h
    · cases hr : readBytes (n - (bs.length - mid.length)) mid with
      | error e => rw [hr] at h; simp at h
      | ok y =>
        obtain ⟨pad, rest2⟩ := y
        rw [hr] at h
        simp only [Except.ok.injEq, Prod.mk.injEq] at h
        have hmono := hp bs a1 mid hq
        have hlen := readBytes_len hr
        have hle : ¬ n < bs.length - mid.length := by assumption
        rw [← h.2]
        omega

/-!
## Claim theorems
-/

/-- C10: calling `get_track` with neither a `trkid` nor a `name` raises
`ValueError` before any lookup: the result is that error for every file
model, whatever its `track_info` and `recs` contain, and the (immutable)
model is untouched. -/
theorem c10_get_track_no_args (v : VitalD) :
    getTrack v none none = .error .valueError := rfl

/-- C9 counterexample: the emitted CSV file name for input stem `rec` and
track `ABP` (devid 7) is `rec_ABP.csv`, not the claimed
`rec_signal_ABP_7.csv`; there is no `_signal_` segment, no devid and no gzip
variant in `Track.save_to_file`. -/
theorem c9_filename_cex :
    trackFileName "rec" "ABP" = "rec_ABP.csv" ∧
      trackFileName "rec" "ABP" ≠ trackFileNameSpec "rec" "ABP" "7" := by
  exact ⟨rfl, by decide⟩

/-- C9 amended: the emitted CSV file is named
`<input_stem>_<track_name>.csv` — for no stem, track name and devid does it
coincide with the claimed `<input_stem>_signal_<track_name>_<devid>.csv`
(the latter is always strictly longer). -/
theorem c9_filename_amended (stem tname devid : String) :
    trackFileName stem tname = stem ++ "_" ++ tname ++ ".csv" ∧
      trackFileName stem tname ≠ trackFileNameSpec stem tname devid := by
  refine ⟨rfl, fun h => ?_⟩
  have hl := congrArg String.length h
  simp only [trackFileName, trackFileNameSpec, String.length_append] at hl
  have e1 : "_".length = 1 := rfl
  have e2 : "_signal_".length = 8 := rfl
  rw [e1, e2] at hl
  omega

/-- First duplicated EVENT track info. -/
def evTi4 : TrkInfoD := ⟨4, 5, 1, "EVENT", "", 0, 1, 0, 0⟩

/-- Second duplicated EVENT track info. -/
def evTi5 : TrkInfoD := ⟨5, 5, 1, "EVENT", "", 0, 1, 0, 0⟩

/-- A REC for trkid 4. -/
def evRec4 : RecD := ⟨4, 0, .strv "a"⟩

/-- A REC for trkid 5. -/
def evRec5 : RecD := ⟨5, 0, .strv "b"⟩

/-- A parsed body with two TRKINFOs named EVENT and a REC for each. -/
def evBody : List PacketD :=
  [⟨0, .trkinfo evTi4⟩, ⟨0, .trkinfo evTi5⟩, ⟨1, .recd evRec4⟩,
    ⟨1, .recd evRec5⟩]

/-- C3 counterexample: on a file with two TRKINFOs named EVENT, the exposed
track-info list retains *both* — the later occurrence is not dropped, so the
list has two EVENT entries, contradicting the claimed deduplication. -/
theorem c3_event_dedup_cex :
    vitalTrackInfo evBody = [evTi4, evTi5] ∧
      ((vitalTrackInfo evBody).filter (fun t => t.name = "EVENT")).length
        = 2 := by
  exact ⟨rfl, rfl⟩

/-- C3 amended: no deduplication is applied — every TRKINFO packet,
duplicated EVENT entries included, remains in the exposed track-info list,
and every REC packet remains accessible by the trkid join used by
`Track.__init__`. -/
theorem c3_no_dedup_amended (body : List PacketD) (t : TrkInfoD) (r : RecD)
    (ht : (⟨0, .trkinfo t⟩ : PacketD) ∈ body)
    (hr : (⟨1, .recd r⟩ : PacketD) ∈ body) :
    t ∈ vitalTrackInfo body ∧
      (r.trkid = t.trkid →
        r ∈ (mkVital body).recs.filter (fun x => x.trkid = t.trkid)) := by
  constructor
  · exact List.mem_filterMap.mpr ⟨_, ht, rfl⟩
  · intro hid
    refine List.mem_filter.mpr ⟨?_, by simp [hid]⟩
    exact List.mem_filterMap.mpr ⟨_, hr, rfl⟩

/-- C3 amended, witness: on the duplicated-EVENT body, the first EVENT
TRKINFO is in the exposed list and its REC is reachable by the trkid
join. -/
theorem c3_no_dedup_amended_witness :
    evTi4 ∈ vitalTrackInfo evBody ∧
      evRec4 ∈ (mkVital evBody).recs.filter (fun x => x.trkid = evTi4.trkid) := by
  have h := c3_no_dedup_amended evBody evTi4 evRec4 (by decide) (by decide)
  exact ⟨h.1, h.2 (by decide)⟩

/-- A track info with trkid 1 named `A`. -/
def dupTiA : TrkInfoD := ⟨1, 1, 1, "A", "", 1, 1, 0, 0⟩

/-- A second track info with the *same* trkid 1, named `B` (per §4.4 of the
format description, duplicate trkids stay in the exposed list). -/
def dupTiB : TrkInfoD := ⟨1, 1, 1, "B", "", 1, 1, 0, 0⟩

/-- A file model whose exposed track-info list has two entries sharing
trkid 1. -/
def dupV : VitalD := ⟨[dupTiA, dupTiB], []⟩

/-- C7 counterexample: `get_track(trkid=1, name="A")` on `dupV` fails (the
`Track` constructor's unpacking finds two TRKINFOs with trkid 1) even
though the name `A` resolves uniquely, among the exposed track-info
entries, to that same trkid 1 — so "succeeds exactly when the name resolves
uniquely to that same trkid" is false. -/
theorem c7_get_track_cex :
    ((dupV.track_info.filter (fun x => x.name = "A")).map (fun x => x.trkid)
        = [1]) ∧
      getTrack dupV (some 1) (some "A") = .error .idAmbiguous := by
  exact ⟨rfl, rfl⟩

/-- C7 amended: `get_track(trkid=t, name=n)` succeeds exactly when `n`
resolves uniquely to `t` *and* the trkid-only query itself succeeds (which
additionally needs a unique TRKINFO for `t` and convertible RECs), in which
case full and partial queries agree; a name-only query fails whenever zero
or several exposed entries bear the name. -/
theorem c7_get_track_amended (v : VitalD) (t : Nat) (n : String)
    (tk : TrackD) :
    (getTrack v (some t) (some n) = .ok tk ↔
      ((v.track_info.filter (fun x => x.name = n)).map (fun x => x.trkid)
          = [t] ∧ getTrack v (some t) none = .ok tk)) ∧
    ((v.track_info.filter (fun x => x.name = n)).map (fun x => x.trkid)
        = [t] → getTrack v none (some n) = getTrack v (some t) (some n)) ∧
    ((v.track_info.filter (fun x => x.name = n)).length ≠ 1 →
      ∃ e, getTrack v none (some n) = .error e) := by
  rcases hl : v.track_info.filter (fun x => x.name = n)
    with _ | ⟨x, _ | ⟨y, ys⟩⟩
  · simp only [getTrack, hl]
    refine ⟨by simp, by simp, fun h => ⟨.nameNotFound, rfl⟩⟩
  · simp only [getTrack, hl]
    by_cases ht : t = x.trkid
    · subst ht
      simp only [if_pos rfl]
      refine ⟨by simp, by simp, fun h => absurd rfl h⟩
    · simp only [if_neg ht, List.map_cons, List.map_nil]
      refine ⟨⟨fun h => by simp at h, ?_⟩, ?_,
        fun h => absurd rfl h⟩
      · rintro ⟨h1, -⟩
        simp only [List.cons.injEq, and_true] at h1
        exact absurd h1.symm ht
      · intro h1
        simp only [List.cons.injEq, and_true] at h1
        exact absurd h1.symm ht
  · simp only [getTrack, hl]
    refine ⟨by simp, by simp, fun h => ⟨.nameAmbiguous, rfl⟩⟩

/-- Every converted REC in the output of the conversion loop is the
conversion of some REC in the input. -/
theorem convRecs_mem {info : TrkInfoD} :
    ∀ {rs : List RecD} {cs : List CRecD},
      convRecs info rs = .ok cs → ∀ c ∈ cs, ∃ r ∈ rs, convRec info r = .ok c := by
  intro rs
  induction rs with
  | nil =>
    intro cs h c hc
    simp only [convRecs, Except.ok.injEq] at h
    subst h
    simp at hc
  | cons r rs ih =>
    intro cs h c hc
    rw [convRecs] at h
    cases h1 : convRec info r with
    | error e => rw [h1] at h; simp at h
    | ok c1 =>
      rw [h1] at h
      cases h2 : convRecs info rs with
      | error e => rw [h2] at h; simp at h
      | ok cs1 =>
        rw [h2] at h
        simp only [Except.ok.injEq] at h
        subst h
        rcases List.mem_cons.mp hc with hc1 | hc1
        · subst hc1
          exact ⟨r, List.mem_cons_self r rs, h1⟩
        · obtain ⟨r2, hr2, hcv⟩ := ih h2 c hc1
          exact ⟨r2, List.mem_cons_of_mem r hr2, hcv⟩

/-- C8: for every successfully built track view, every converted REC
carries the affine-transformed values: for rec_type 1 every sample is
`raw * adc_gain + adc_offset` (stated both as a map and per sample index);
for rec_type 2 the single value is `raw0 * adc_gain + adc_offset`; for
rec_type 5 the exposed value is the decoded string itself with the block
length set to 1. -/
theorem c8_affine_transform (v : VitalD) (tid : Nat) (tk : TrackD)
    (h : mkTrack v tid = .ok tk) (j : Nat) (hj : j < tk.recs.length) :
    (tk.info.rec_type = 1 →
      ∃ nv vals, (tk.recs.get ⟨j, hj⟩).values = .wav nv vals ∧
        (tk.recs.get ⟨j, hj⟩).vals_real =
          .rs (vals.map
            (fun raw => raw * tk.info.adc_gain + tk.info.adc_offset)) ∧
        ∀ i : Fin vals.length,
          (vals.map
            (fun raw => raw * tk.info.adc_gain + tk.info.adc_offset)).get
              ⟨i.1, by simpa using i.2⟩
            = vals.get i * tk.info.adc_gain + tk.info.adc_offset) ∧
    (tk.info.rec_type = 2 →
      ∃ v0 vrest, (tk.recs.get ⟨j, hj⟩).values = .numv (v0 :: vrest) ∧
        (tk.recs.get ⟨j, hj⟩).vals_real =
          .r (v0 * tk.info.adc_gain + tk.info.adc_offset)) ∧
    (tk.info.rec_type = 5 →
      ∃ s, (tk.recs.get ⟨j, hj⟩).values = .strv s ∧
        (tk.recs.get ⟨j, hj⟩).vals_real = .s s ∧
        (tk.recs.get ⟨j, hj⟩).num = 1) := by
  rcases hfi : v.track_info.filter (fun trk => trk.trkid = tid)
    with _ | ⟨info, _ | _⟩
  · simp only [mkTrack, hfi] at h
    exact absurd h (by simp)
  · simp only [mkTrack, hfi] at h
    cases hc : convRecs info (v.recs.filter (fun rec => rec.trkid = tid)) with
    | error e => rw [hc] at h; simp at h
    | ok cs =>
      rw [hc] at h
      simp only [Except.ok.injEq] at h
      subst h
      have hmem : (TrackD.mk info cs).recs.get ⟨j, hj⟩ ∈ cs :=
        List.get_mem cs j hj
      obtain ⟨r, hr, hcv⟩ := convRecs_mem hc _ hmem
      unfold convRec at hcv
      refine ⟨fun h1 => ?_, fun h1 => ?_, fun h1 => ?_⟩
      · rw [if_pos h1] at hcv
        cases hv : r.values with
        | wav nv vals =>
          rw [hv] at hcv
          simp only [Except.ok.injEq] at hcv
          refine ⟨nv, vals, ?_, ?_, ?_⟩
          · rw [← hcv]
          · rw [← hcv]
          · intro i
            simp [List.get_eq_getElem]
        | numv val => rw [hv] at hcv; simp at hcv
        | strv s => rw [hv] at hcv; simp at hcv
      · have hne : info.rec_type ≠ 1 := by
          intro he
          rw [he] at h1
          cases h1
        rw [if_neg hne, if_pos h1] at hcv
        cases hv : r.values with
        | wav nv vals => rw [hv] at hcv; simp at hcv
        | numv val =>
          rw [hv] at hcv
          cases val with
          | nil => simp at hcv
          | cons v0 vrest =>
            simp only [Except.ok.injEq] at hcv
            refine ⟨v0, vrest, ?_, ?_⟩
            · rw [← hcv]
            · rw [← hcv]
        | strv s => rw [hv] at hcv; simp at hcv
      · have hne : info.rec_type ≠ 1 := by
          intro he
          rw [he] at h1
          cases h1
        have hne2 : info.rec_type ≠ 2 := by
          intro he
          rw [he] at h1
          cases h1
        rw [if_neg hne, if_neg hne2, if_pos h1] at hcv
        cases hv : r.values with
        | wav nv vals => rw [hv] at hcv; simp at hcv
        | numv val => rw [hv] at hcv; simp at hcv
        | strv s =>
          rw [hv] at hcv
          simp only [Except.ok.injEq] at hcv
          refine ⟨s, ?_, ?_, ?_⟩
          · rw [← hcv]
          · rw [← hcv]
          · rw [← hcv]
  · simp only [mkTrack, hfi] at h
    exact absurd h (by simp)

/-- A waveform track info with adc_gain 2 and adc_offset 3. -/
def exTi8 : TrkInfoD := ⟨1, 1, 1, "ART", "mmHg", 100, 2, 3, 0⟩

/-- A waveform REC with raw samples 1 and 2. -/
def exRec8 : RecD := ⟨1, 0, .wav 2 [1, 2]⟩

/-- A one-track file model. -/
def exV8 : VitalD := ⟨[exTi8], [exRec8]⟩

/-- The track view `get_track` builds over `exV8`:
real values 1 * 2 + 3 = 5 and 2 * 2 + 3 = 7. -/
def exTk8 : TrackD := ⟨exTi8, [⟨1, 0, .wav 2 [1, 2], 2, .rs [5, 7]⟩]⟩

/-- C8 witness: the theorem applied to the concrete waveform track. -/
theorem c8_affine_transform_witness :
    ∃ nv vals,
      (exTk8.recs.get ⟨0, by decide⟩).values = .wav nv vals ∧
      (exTk8.recs.get ⟨0, by decide⟩).vals_real =
        .rs (vals.map
          (fun raw => raw * exTk8.info.adc_gain + exTk8.info.adc_offset)) := by
  have hmk : mkTrack exV8 1 = Except.ok exTk8 := by
    simp [mkTrack, exV8, exTi8, exRec8, exTk8, convRecs, convRec]
    norm_num
  have h := c8_affine_transform exV8 1 exTk8 hmk 0 (by decide)
  obtain ⟨nv, vals, h1, h2, -⟩ := h.1 (by decide)
  exact ⟨nv, vals, h1, h2⟩

/-- The bytes of a minimal file: a bare header (`VITA`, format_ver 3,
headerlen 10, tzbias 0, inst_id 0, prog_ver 0) and no body packets. -/
def hdrBytes : List Nat :=
  [86, 73, 84, 65, 3, 0, 0, 0, 10, 0, 0, 0, 0, 0, 0, 0, 0, 0, 0, 0]

/-- The header those bytes decode to. -/
def hdr20 : HeaderP := ⟨3, 10, 0, 0, 0⟩

/-- C1: after the packet loop terminates with body `body`,
`load_vital` computes `summed = sum (datalen + 5) over body + headerlen +
10` and succeeds past the integrity check exactly when `summed` equals the
total decompressed file size, failing with the integrity `AssertionError`
otherwise. -/
theorem c1_integrity_check (bs : List Nat) (hdr : HeaderP)
    (rest : List Nat) (body : List PacketB) (fmt : Reg)
    (hh : header_str bs = .ok (hdr, rest))
    (hb : runBody rest [] = .ok (body, fmt)) :
    loadVital bs =
      if (body.map (fun x => x.datalen + 5)).sum + hdr.headerlen + 10
          = bs.length
      then .ok ⟨hdr, body⟩ else .error .integrityMismatch := by
  simp only [loadVital, hh, hb]

/-- C1 witness: the bare-header file has summed size
`0 + 10 + 10 = 20 = |file|`, so loading succeeds. -/
theorem c1_integrity_check_witness :
    loadVital hdrBytes = .ok ⟨hdr20, []⟩ := by
  have h := c1_integrity_check hdrBytes hdr20 [] [] [] rfl rfl
  simpa [hdrBytes, hdr20] using h

/-- C4 counterexample: on the stream `[1]` the short read happens
mid-packet (the type byte 1 was consumed; reading `datalen` fails), yet the
packet loop terminates *cleanly* with the packets so far — there is no
`TruncatedStream` failure; on the full file the truncation surfaces only as
the integrity-check error afterwards. -/
theorem c4_truncation_cex :
    runBody [1] [] = .ok ([], []) ∧
      loadVital (hdrBytes ++ [1]) = .error .integrityMismatch := by
  exact ⟨rfl, rfl⟩

/-- C4 amended: the packet loop exits cleanly on *any* `StreamError` —
at the type-byte position or mid-packet alike; a mid-packet truncation is
never a fatal parse error of its own (it can only surface later as the
integrity mismatch, as in the counterexample). -/
theorem c4_clean_termination_amended (fuel : Nat) (bs : List Nat)
    (fmt : Reg) (acc : List PacketB)
    (h : body_str fmt bs = .error .streamError) :
    bodyLoop (fuel + 1) bs fmt acc = .ok (acc, fmt) := by
  simp only [bodyLoop, h]

/-- C4 amended, witness: the mid-packet short read of stream `[1]`
terminates the loop cleanly. -/
theorem c4_clean_termination_amended_witness :
    body_str [] [1] = .error .streamError ∧
      bodyLoop 1 [1] [] [] = .ok ([], []) := by
  have h1 : body_str [] [1] = .error .streamError := rfl
  exact ⟨h1, c4_clean_termination_amended 0 [1] [] [] h1⟩

/-- A file whose body is a single packet of unknown type 99 with
datalen 4; were unknown types skipped, the integrity sum `9 + 10 + 10 = 29`
would match the file length and loading would succeed. -/
def unkBytes : List Nat := hdrBytes ++ [99, 4, 0, 0, 0, 7, 7, 7, 7]

/-- C5 counterexample: a packet whose type byte is 99 aborts parsing with
the `OneOf` validation error — its `datalen` bytes are *not* consumed and
parsing does not continue with the next packet. -/
theorem c5_unknown_type_cex :
    runBody [99, 4, 0, 0, 0, 7, 7, 7, 7] [] = .error .validationError ∧
      loadVital unkBytes = .error .validationError := by
  exact ⟨rfl, rfl⟩

/-- C5 amended: every packet whose type byte lies outside {0, 1, 6, 9}
fails `body_str` with the validation error of `OneOf`, and the packet loop
propagates that error (it is not a `StreamError`), aborting the parse; the
`Padding(datalen)` skip branch of the data switch is unreachable. -/
theorem c5_unknown_type_amended (b : Nat) (bs : List Nat) (fmt : Reg)
    (acc : List PacketB) (fuel : Nat) (h : b ∉ [0, 1, 6, 9]) :
    body_str fmt (b :: bs) = .error .validationError ∧
      bodyLoop (fuel + 1) (b :: bs) fmt acc = .error .validationError := by
  have hb : readByte (b :: bs) = .ok (b, bs) := by
    unfold readByte readBytes pbind
    simp [ppure]
  have ho : oneOf readByte [0, 1, 9, 6] (b :: bs)
      = .error .validationError := by
    unfold oneOf pbind
    rw [hb]
    show (if b ∈ [0, 1, 9, 6] then ppure b else pfail CErr.validationError) bs
      = .error .validationError
    rw [if_neg]
    · rfl
    · intro hc
      simp only [List.mem_cons, List.not_mem_nil, or_false] at h hc
      tauto
  have h1 : body_str fmt (b :: bs) = .error .validationError := by
    unfold body_str pbind
    rw [ho]
  exact ⟨h1, by simp only [bodyLoop, h1]⟩

/-- C5 amended, witness: type byte 99. -/
theorem c5_unknown_type_amended_witness :
    body_str [] [99] = .error .validationError ∧
      bodyLoop 1 [99] [] [] = .error .validationError :=
  c5_unknown_type_amended 99 [] [] [] 0 (by decide)

/-- The record built by the tail of `trkinfo_str` carries the three values
parsed before it. -/
theorem trkinfoRest_fields {trkid rec_type recfmt : Nat} {bs : List Nat}
    {ti : TrkInfoP} {rest : List Nat}
    (h : trkinfoRest trkid rec_type recfmt bs = .ok (ti, rest)) :
    ti.trkid = trkid ∧ ti.rec_type = rec_type ∧ ti.recfmt = recfmt := by
  unfold trkinfoRest at h
  rw [pbind_ok] at h; obtain ⟨x1, m1, -, h⟩ := h
  rw [pbind_ok] at h; obtain ⟨x2, m2, -, h⟩ := h
  rw [pbind_ok] at h; obtain ⟨x3, m3, -, h⟩ := h
  rw [pbind_ok] at h; obtain ⟨x4, m4, -, h⟩ := h
  rw [pbind_ok] at h; obtain ⟨x5, m5, -, h⟩ := h
  rw [pbind_ok] at h; obtain ⟨x6, m6, -, h⟩ := h
  rw [pbind_ok] at h; obtain ⟨x7, m7, -, h⟩ := h
  rw [pbind_ok] at h; obtain ⟨x8, m8, -, h⟩ := h
  rw [pbind_ok] at h; obtain ⟨x9, m9, -, h⟩ := h
  rw [pbind_ok] at h; obtain ⟨x10, m10, -, h⟩ := h
  rw [ppure_ok] at h
  rw [h.1]
  exact ⟨rfl, rfl, rfl⟩

/-- An array of elements that each consume exactly `w` bytes and satisfy
`Q` yields `num` elements over exactly `num * w` bytes, all satisfying
`Q`. -/
theorem parseArray_spec {α : Type} {p : P α} {w : Nat} {Q : α → Prop}
    (hp : ∀ bs a rest, p bs = .ok (a, rest) →
      bs.length = w + rest.length ∧ Q a) :
    ∀ (num : Nat) (bs : List Nat) (vals : List α) (rest : List Nat),
      parseArray num p bs = .ok (vals, rest) →
      vals.length = num ∧ bs.length = num * w + rest.length ∧
        ∀ v ∈ vals, Q v := by
  intro num
  induction num with
  | zero =>
    intro bs vals rest h
    simp only [parseArray] at h
    rw [ppure_ok] at h
    obtain ⟨rfl, rfl⟩ := h
    simp
  | succ n ih =>
    intro bs vals rest h
    simp only [parseArray] at h
    rw [pbind_ok] at h
    obtain ⟨a, mid, h1, h⟩ := h
    rw [pbind_ok] at h
    obtain ⟨as, mid2, h2, h3⟩ := h
    rw [ppure_ok] at h3
    obtain ⟨rfl, rfl⟩ := h3
    obtain ⟨ha, hq⟩ := hp bs a mid h1
    obtain ⟨hlen, hcons, hall⟩ := ih _ _ _ h2
    refine ⟨by simp [hlen], ?_, ?_⟩
    · rw [Nat.succ_mul]
      omega
    · intro v hv
      rcases List.mem_cons.mp hv with rfl | hv2
      · exact hq
      · exact hall v hv2

/-- The recfmt-1 element parser consumes 4 bytes and yields an `f32`
element of 4 raw bytes. -/
theorem pElem_one_spec : ∀ (bs : List Nat) (a : RecVal) (rest : List Nat),
    pElem 1 bs = .ok (a, rest) →
    bs.length = 4 + rest.length ∧
      ∃ raw, a = RecVal.f32 raw ∧ raw.length = 4 := by
  intro bs a rest h
  simp only [pElem] at h
  rw [pmap_ok] at h
  obtain ⟨raw, h1, rfl⟩ := h
  obtain ⟨ht, -, hle⟩ := readBytes_spec h1
  refine ⟨readBytes_len h1, raw, rfl, ?_⟩
  rw [ht]
  simp only [List.length_take]
  omega

/-- The recfmt-6 element parser consumes 2 bytes and yields a decoded `u16`
element. -/
theorem pElem_six_spec : ∀ (bs : List Nat) (a : RecVal) (rest : List Nat),
    pElem 6 bs = .ok (a, rest) →
    bs.length = 2 + rest.length ∧ ∃ x, a = RecVal.u16 x := by
  intro bs a rest h
  simp only [pElem] at h
  rw [pmap_ok] at h
  obtain ⟨raw, h1, rfl⟩ := h
  exact ⟨readBytes_len h1, leNat raw, rfl⟩

/-- C2 counterexample: a TRKINFO whose recfmt byte is 2 — a value inside
the claimed admissible set {1,...,8} — is rejected by the
`OneOf(Byte, [1, 6])` validator; TRKINFO parsing fails instead of
succeeding. -/
theorem c2_recfmt_cex :
    trkinfo_str [1, 0, 1, 2] = .error .validationError := rfl

/-- C2 amended: TRKINFO parsing only ever accepts `recfmt ∈ {1, 6}` (all
other values, 2,3,4,5,7,8 included, are rejected by the `OneOf`
validator); for the accepted values the REC sample decoder decodes `num`
elements of the element type and width the recfmt switch assigns — f32 of
width 4 for recfmt 1, u16 of width 2 for recfmt 6. -/
theorem c2_recfmt_amended (bs : List Nat) (ti : TrkInfoP) (rest : List Nat)
    (h : trkinfo_str bs = .ok (ti, rest)) :
    (ti.recfmt = 1 ∨ ti.recfmt = 6) ∧
    (∀ num bs2 vals rest2,
      recfmt_str ti.recfmt num bs2 = .ok (vals, rest2) →
      vals.length = num ∧
      bs2.length = num * elemWidth ti.recfmt + rest2.length ∧
      (ti.recfmt = 1 →
        ∀ v ∈ vals, ∃ raw, v = RecVal.f32 raw ∧ raw.length = 4) ∧
      (ti.recfmt = 6 → ∀ v ∈ vals, ∃ x, v = RecVal.u16 x)) := by
  unfold trkinfo_str at h
  rw [pbind_ok] at h; obtain ⟨trkid, m1, -, h⟩ := h
  rw [pbind_ok] at h; obtain ⟨rt, m2, -, h⟩ := h
  rw [pbind_ok] at h; obtain ⟨rf, m3, hof, h⟩ := h
  obtain ⟨-, hmem⟩ := oneOf_ok hof
  obtain ⟨-, -, hrf⟩ := trkinfoRest_fields h
  simp only [List.mem_cons, List.not_mem_nil, or_false] at hmem
  refine ⟨by rw [hrf]; exact hmem, ?_⟩
  intro num bs2 vals rest2 hv
  rw [hrf] at hv ⊢
  rcases hmem with h16 | h16
  · subst h16
    simp only [recfmt_str] at hv
    obtain ⟨hl, hlen, hall⟩ := parseArray_spec pElem_one_spec num bs2 vals rest2 hv
    exact ⟨hl, by simpa [elemWidth] using hlen, fun _ => hall,
      fun h6 => absurd h6 (by decide)⟩
  · subst h16
    simp only [recfmt_str] at hv
    obtain ⟨hl, hlen, hall⟩ := parseArray_spec pElem_six_spec num bs2 vals rest2 hv
    exact ⟨hl, by simpa [elemWidth] using hlen,
      fun h1 => absurd h1 (by decide), fun _ => hall⟩

/-- Bytes of a complete TRKINFO with trkid 1, rec_type 1, recfmt 1 and all
remaining fields zero. -/
def tiBytes : List Nat := [1, 0, 1, 1] ++ List.replicate 45 0

/-- The TRKINFO those bytes decode to. -/
def tiEx : TrkInfoP :=
  ⟨1, 1, 1, [], [], [0, 0, 0, 0], [0, 0, 0, 0], [0, 0, 0, 0], [0, 0, 0, 0],
    List.replicate 8 0, List.replicate 8 0, 0, 0⟩

/-- C2 amended, witness: the concrete TRKINFO parses with recfmt 1, and a
one-element recfmt-1 sample block decodes as one f32 over 4 bytes. -/
theorem c2_recfmt_amended_witness :
    (tiEx.recfmt = 1 ∨ tiEx.recfmt = 6) ∧
      ([RecVal.f32 [0, 0, 0, 0]].length = 1 ∧
        ([0, 0, 0, 0] : List Nat).length
          = 1 * elemWidth tiEx.recfmt + ([] : List Nat).length) := by
  have hp : trkinfo_str tiBytes = .ok (tiEx, []) := rfl
  have h := c2_recfmt_amended tiBytes tiEx [] hp
  have h2 := h.2 1 [0, 0, 0, 0] [RecVal.f32 [0, 0, 0, 0]] [] rfl
  exact ⟨h.1, h2.1, h2.2.1⟩

/-- The `values` switch always consumes exactly its budget when it
succeeds: the padded variants pad up to the budget and the default reads
`Byte[budget]`. -/
theorem recValues_len {rt rf budget : Nat} {bs : List Nat} {a : RecDataB}
    {rest : List Nat} (h : recValues_str rt rf budget bs = .ok (a, rest)) :
    bs.length = budget + rest.length := by
  unfold recValues_str at h
  split at h
  · exact padded_len (mono_rec_wav_str _) h
  · exact padded_len (mono_rec_num_str _) h
  · exact padded_len mono_rec_str_str h
  · rw [pmap_ok] at h
    obtain ⟨raw, hraw, -⟩ := h
    exact readBytes_len hraw

/-- C6: whenever a REC packet parses successfully, the bytes consumed after
the 2-byte `infolen`, 8-byte `dt` and 2-byte `trkid` fields — the variant
payload plus its silently consumed surplus — amount to exactly
`datalen - infolen - 2`, so the packet ends in frame. -/
theorem c6_rec_budget (datalen : Nat) (fmt : Reg) (bs : List Nat)
    (r : RecP) (rest : List Nat)
    (h : rec_str datalen fmt bs = .ok (r, rest)) :
    bs.length = 12 + (datalen - r.infolen - 2) + rest.length := by
  unfold rec_str at h
  rw [pbind_ok] at h; obtain ⟨infolen, m1, h1, h⟩ := h
  rw [pbind_ok] at h; obtain ⟨dt, m2, h2, h⟩ := h
  rw [pbind_ok] at h; obtain ⟨trkid, m3, h3, h⟩ := h
  cases hreg : regFind fmt trkid with
  | none => rw [hreg] at h; simp [pfail] at h
  | some ti =>
    rw [hreg] at h
    rw [pbind_ok] at h
    obtain ⟨vals, m4, h4, h5⟩ := h
    rw [ppure_ok] at h5
    obtain ⟨rfl, rfl⟩ := h5
    have l1 := readU16_len h1
    have l2 := readBytes_len h2
    have l3 := readU16_len h3
    have l4 : m3.length = (datalen - infolen - 2) + rest.length :=
      recValues_len h4
    simp only
    omega

/-- A NUM-type TRKINFO (rec_type 2, recfmt 1) registered under trkid 1. -/
def tiEx2 : TrkInfoP :=
  ⟨1, 2, 1, [], [], [0, 0, 0, 0], [0, 0, 0, 0], [0, 0, 0, 0], [0, 0, 0, 0],
    List.replicate 8 0, List.replicate 8 0, 0, 0⟩

/-- A registry holding `tiEx2`. -/
def recFmtEx : Reg := [(1, tiEx2)]

/-- Bytes of a REC with infolen 10, zero timestamp, trkid 1, one f32 value
and two surplus bytes inside the payload budget. -/
def recBytes : List Nat :=
  [10, 0] ++ List.replicate 8 0 ++ [1, 0] ++ [0, 0, 0, 0] ++ [9, 9]

/-- The REC those bytes decode to under `recFmtEx` with datalen 18. -/
def recEx : RecP :=
  ⟨10, List.replicate 8 0, 1, 2, [], .num1 1 [RecVal.f32 [0, 0, 0, 0]]⟩

/-- C6 witness: the concrete REC (datalen 18, infolen 10) consumes its
budget 18 - 10 - 2 = 6 exactly, surplus [9, 9] included. -/
theorem c6_rec_budget_witness :
    rec_str 18 recFmtEx recBytes = .ok (recEx, []) ∧
      recBytes.length = 12 + (18 - recEx.infolen - 2)
        + ([] : List Nat).length := by
  have hp : rec_str 18 recFmtEx recBytes = .ok (recEx, []) := rfl
  exact ⟨hp, c6_rec_budget 18 recFmtEx recBytes recEx [] hp⟩

end ParseVital
